import Mathlib

/-!
Verification of the pure core of the "explain-selection-with-ai" Obsidian
plugin (`src/lib.ts` and the save / streaming / cache logic of `main.ts`).

JavaScript strings are modelled as `List Char` (one element per UTF-16 code
unit of the source's strings; all characters involved are in the BMP, where
code units and code points coincide).  `String.prototype.replace` with a
global literal-pattern regex and a constant replacer function is modelled by
`replaceAll`: a single left-to-right scan, non-overlapping matches, and the
replacement text is never rescanned within the pass.  All call sites use
non-empty patterns, so the fuel-based model below is exact for them.
-/

namespace ExplainLib

/-- JavaScript strings, one element per code unit. -/
abbrev Str := List Char

/-- The literal placeholder token `{{selection}}`. -/
def selTok : Str := "\x7b\x7bselection\x7d\x7d".toList

/-- The literal placeholder token `{{context}}`. -/
def ctxTok : Str := "\x7b\x7bcontext\x7d\x7d".toList

/-- One left-to-right replacement scan with explicit fuel; the fuel is set to
the length of the scanned string,. Each step either consumes one character or
consumes `pat.length ≥ 1` characters (for the non-empty patterns used by the
plugin), so the fuel never runs out on actual calls. -/
def replaceAllAux (pat repl : Str) : Nat → Str → Str
  | _, [] => []
  | 0, s => s
  | fuel+1, c :: cs =>
    match pat.isPrefixOf (c :: cs) with
    | true => repl ++ replaceAllAux pat repl fuel (List.drop pat.length (c :: cs))
    | false => c :: replaceAllAux pat repl fuel cs

/-- Model of `s.replace(/pat/g, () => repl)` for a literal pattern `pat`:
every non-overlapping occurrence of `pat` in `s` is replaced by `repl`,
left to right, and `repl` is inserted verbatim, never rescanned. -/
def replaceAll (pat repl s : Str) : Str := replaceAllAux pat repl s.length s

/-- `buildPrompt` from `src/lib.ts`: two sequential global replaces, first
`{{selection}}` by `selection`, then `{{context}}` by `context` (a replacer
function is used in the source, so `$`-patterns are inert — replacements are
verbatim). -/
def buildPrompt (template selection context : Str) : Str :=
  replaceAll ctxTok context (replaceAll selTok selection template)

/-- Claim C1's comparison point, following the spec's words rather than the
source: a SINGLE simultaneous pass over the template, replacing each
occurrence of `{{selection}}` by `selection` and each occurrence of
`{{context}}` by `context`, never rescanning substituted content. -/
def substituteSinglePassAux (selection context : Str) : Nat → Str → Str
  | _, [] => []
  | 0, s => s
  | fuel+1, c :: cs =>
    match selTok.isPrefixOf (c :: cs), ctxTok.isPrefixOf (c :: cs) with
    | true, _ =>
      selection ++ substituteSinglePassAux selection context fuel
        (List.drop selTok.length (c :: cs))
    | false, true =>
      context ++ substituteSinglePassAux selection context fuel
        (List.drop ctxTok.length (c :: cs))
    | false, false => c :: substituteSinglePassAux selection context fuel cs

/-- Single-pass simultaneous substitution (the behaviour claim C1 ascribes
to `buildPrompt`). -/
def substituteSinglePass (template selection context : Str) : Str :=
  substituteSinglePassAux selection context template.length template

/-- The three-character ellipsis marker `...`. -/
def ellipsis : Str := "...".toList

/-- The selection-truncation stage of `buildMenuLabel`: cut to 24 characters
plus the ellipsis marker, only when longer than 24. -/
def truncatedSelection (selection : Str) : Str :=
  if selection.length > 24 then selection.take 24 ++ ellipsis else selection

/-- The substitution stage of `buildMenuLabel`: `{{selection}}` becomes the
truncated selection, `{{context}}` collapses to the ellipsis marker. -/
def menuLabelRaw (template selection : Str) : Str :=
  replaceAll ctxTok ellipsis
    (replaceAll selTok (truncatedSelection selection) template)

/-- `buildMenuLabel` from `src/lib.ts` (default `maxLength` is 50 in the
source): substitution stage first, then a hard truncation of the whole label
to `maxLength - 3` characters plus the ellipsis marker when it exceeds
`maxLength`. -/
def buildMenuLabel (template selection : Str) (maxLength : Nat := 50) : Str :=
  let label := menuLabelRaw template selection
  if label.length > maxLength then label.take (maxLength - 3) ++ ellipsis
  else label

/-- The plugin settings record (`ExplainSelectionWithAiPluginSettings`). -/
structure Settings where
  dropdownValue : Str
  baseURL : Str
  endpoint : Str
  apiKey : Str
  openRouterModel : Str
  openRouterApiKey : Str
  openRouterReferer : Str
  openRouterTitle : Str
  systemPrompt : Str
  userPromptTemplate : Str
deriving DecidableEq

/-- Result shape of `getProviderConfig`; `defaultHeaders` is `none` when the
source returns `undefined` for that field, and otherwise the header entries
in insertion order. -/
structure ProviderConfig where
  baseURL : Str
  apiKey : Str
  model : Str
  defaultHeaders : Option (List (Str × Str))
deriving DecidableEq

/-- `getProviderConfig` from `src/lib.ts`. JS truthiness of a string field
(`if (settings.openRouterReferer)`) is non-emptiness; an object literal with
no keys becomes `undefined` (`none`) for `defaultHeaders`. -/
def getProviderConfig (s : Settings) : ProviderConfig :=
  let isOpenRouter : Bool := s.dropdownValue = "openrouter".toList
  let baseURL := if isOpenRouter then "https://openrouter.ai/api/v1".toList else s.baseURL
  let apiKey := if isOpenRouter then s.openRouterApiKey else s.apiKey
  let model := if isOpenRouter then s.openRouterModel else s.endpoint
  let defaultHeaders : List (Str × Str) :=
    if isOpenRouter then
      (if s.openRouterReferer ≠ [] then [("HTTP-Referer".toList, s.openRouterReferer)] else []) ++
      (if s.openRouterTitle ≠ [] then [("X-Title".toList, s.openRouterTitle)] else [])
    else []
  { baseURL := baseURL
    apiKey := if apiKey = [] then "-".toList else apiKey
    model := model
    defaultHeaders := if defaultHeaders.length > 0 then some defaultHeaders else none }

/-- The provider-independent key the code reads before the empty-key
coercion (`isOpenRouter ? settings.openRouterApiKey : settings.apiKey`). -/
def resolvedApiKey (s : Settings) : Str :=
  if s.dropdownValue = "openrouter".toList then s.openRouterApiKey else s.apiKey

/-- The keys present in a config's header mapping (empty when the mapping
is absent). -/
def headerKeys (cfg : ProviderConfig) : List Str :=
  match cfg.defaultHeaders with
  | some l => l.map Prod.fst
  | none => []

/-- `ModelInfo` from `src/lib.ts`. -/
structure ModelInfo where
  id : Str
  name : Option Str := none
  pricing : Option (Str × Str) := none
deriving DecidableEq

/-- An element of the raw OpenAI listing (`{ id: string }`). -/
structure RawModel where
  id : Str
deriving DecidableEq

/-- Model of `a.localeCompare(b) ≤ 0` as ordinal (code-unit lexicographic)
comparison, the locale-independent reading the spec allows. -/
def strLe : Str → Str → Bool
  | [], _ => true
  | _ :: _, [] => false
  | a :: as, b :: bs => if a < b then true else if b < a then false else strLe as bs

/-- The comparator `(a, b) => a.id.localeCompare(b.id)` as an ordering
relation on `ModelInfo`. -/
def idLe (a b : ModelInfo) : Prop := strLe a.id b.id = true

instance : DecidableRel idLe := fun a b => by unfold idLe; infer_instance

/-- `Array.prototype.sort` with the id comparator.  The comparator is a
total preorder whose ties are exactly equal ids; every element produced by
the plugin's parsers is fully determined by fields that tie only when equal,
so any comparison sort yields this list; we model it with insertion sort. -/
def sortByIdLe (l : List ModelInfo) : List ModelInfo := l.insertionSort idLe

/-- The allow-list of chat-model id prefixes in `filterOpenAIModels`. -/
def chatPrefixes : List Str :=
  ["gpt-".toList, "o1".toList, "o3".toList, "o4".toList, "chatgpt-".toList]

/-- The deny-list of id prefixes in `filterOpenAIModels`. -/
def excludePrefixes : List Str :=
  ["dall-e".toList, "tts-".toList, "whisper".toList, "embedding".toList,
   "text-embedding".toList, "babbage".toList, "davinci".toList]

/-- `id.startsWith(p)` for some allow-list prefix `p`. -/
def matchesChat (id : Str) : Bool := chatPrefixes.any (fun p => p.isPrefixOf id)

/-- `id.startsWith(p)` for some deny-list prefix `p`. -/
def isExcluded (id : Str) : Bool := excludePrefixes.any (fun p => p.isPrefixOf id)

/-- `filterOpenAIModels` from `src/lib.ts`: keep ids matching the allow-list
and not the deny-list, strip to bare `{id}` records, sort by id. -/
def filterOpenAIModels (models : List RawModel) : List ModelInfo :=
  sortByIdLe ((models.filter (fun m => matchesChat m.id && !isExcluded m.id)).map
    (fun m => { id := m.id }))

/-- Forbidden filename characters of `sanitizeFileName`'s character class. -/
def forbiddenChars : List Char := "*\"\\/<>:|?".toList

/-- Model of `String.prototype.trim` (the sanitized names involved only use
ASCII whitespace, where `Char.isWhitespace` agrees with JS). -/
def jsTrim (s : Str) : Str :=
  ((s.dropWhile Char.isWhitespace).reverse.dropWhile Char.isWhitespace).reverse

/-- The fallback label returned when sanitization empties the name. -/
def fallbackName : Str := "AI Explanation".toList

/-- `sanitizeFileName` from `src/lib.ts`: delete forbidden characters
(single-character regex class, so deletion is a filter), truncate to 100,
trim, and fall back to the fixed label when the result is the empty string
(`|| "AI Explanation"`). -/
def sanitizeFileName (name : Str) : Str :=
  let r := jsTrim ((name.filter (fun c => !forbiddenChars.contains c)).take 100)
  if r = [] then fallbackName else r

/-- Untyped JSON-ish values as seen by the `any`-typed parsers.  Numbers are
modelled as integers (no parser claim depends on fractional values). -/
inductive JSVal where
  | undef : JSVal
  | null : JSVal
  | bool : Bool → JSVal
  | num : Int → JSVal
  | str : Str → JSVal
  | arr : List JSVal → JSVal
  | obj : List (Str × JSVal) → JSVal

namespace JSVal

/-- Property access `v.k` / `v?.k`: `undefined` on a missing key or on a
non-object (the parsers only dereference after truthiness or `?.` guards,
so the throwing cases of bare access on `null`/`undefined` are unreachable
in the modelled code paths). -/
def getField : JSVal → Str → JSVal
  | obj fields, k =>
    match fields.find? (fun p => p.1 = k) with
    | some p => p.2
    | none => undef
  | _, _ => undef

/-- JS truthiness. -/
def truthy : JSVal → Bool
  | undef => false
  | null => false
  | bool b => b
  | num n => n ≠ 0
  | str s => s ≠ []
  | arr _ => true
  | obj _ => true

/-- JS `a || b`. -/
def jsOr (a b : JSVal) : JSVal := if truthy a then a else b

/-- JS `a && b`. -/
def jsAnd (a b : JSVal) : JSVal := if truthy a then b else a

/-- Read a string field leniently; the plugin's well-formed payloads carry
strings here, and no claim depends on non-string field contents. -/
def asStr : JSVal → Str
  | str s => s
  | _ => []

end JSVal

/-- One element of the OpenRouter `data` array mapped to `ModelInfo`:
`name: m.name || undefined`, and pricing only when both
`m.pricing?.prompt` and `m.pricing?.completion` are truthy. -/
def toOpenRouterModel (m : JSVal) : ModelInfo :=
  let nm := m.getField "name".toList
  let pPrompt := (m.getField "pricing".toList).getField "prompt".toList
  let pCompletion := (m.getField "pricing".toList).getField "completion".toList
  { id := (m.getField "id".toList).asStr
    name := if nm.truthy then some nm.asStr else none
    pricing := if pPrompt.truthy && pCompletion.truthy
      then some (pPrompt.asStr, pCompletion.asStr) else none }

/-- `parseOpenRouterModels` from `src/lib.ts`: `(data && data.data) || []`,
then `.map`, then sort by id.  Calling `.map` on a non-array value throws in
JS; this is made explicit as an `Except.error`. -/
def parseOpenRouterModels (data : JSVal) : Except Str (List ModelInfo) :=
  match (data.jsAnd (data.getField "data".toList)).jsOr (JSVal.arr []) with
  | JSVal.arr items => Except.ok (sortByIdLe (items.map toOpenRouterModel))
  | _ => Except.error "TypeError: not an array".toList

/-- `parseOllamaModels` from `src/lib.ts`: `(data && data.models) || []`,
each listing's `name` becoming the canonical `id`, then sort by id. -/
def parseOllamaModels (data : JSVal) : Except Str (List ModelInfo) :=
  match (data.jsAnd (data.getField "models".toList)).jsOr (JSVal.arr []) with
  | JSVal.arr items =>
    Except.ok (sortByIdLe (items.map (fun m => { id := (m.getField "name".toList).asStr })))
  | _ => Except.error "TypeError: not an array".toList

/-- One incremental streaming chunk: optional content text, optional usage
payload `(prompt_tokens, completion_tokens)`, and the wall-clock time at
which the chunk is processed. -/
structure Chunk where
  content : Option Str
  usage : Option (Nat × Nat)
  time : Nat
deriving DecidableEq

/-- Truthiness of `chunk.choices[0]?.delta?.content` for a present chunk:
a contentful chunk is one carrying a non-empty string. -/
def contentTruthy (c : Chunk) : Bool :=
  match c.content with
  | some s => s ≠ []
  | none => false

/-- The accumulator state of `ExplainSelectionWithAiModal.onOpen`'s stream
loop. -/
structure StreamState where
  rollingText : Str
  promptTokens : Nat
  completionTokens : Nat
  firstTokenTime : Option Nat
deriving DecidableEq

/-- The initial accumulator state at stream start. -/
def initialStreamState : StreamState :=
  { rollingText := [], promptTokens := 0, completionTokens := 0, firstTokenTime := none }

/-- One iteration of the `for await (const chunk of completion)` loop:
append truthy content (recording the first-token time on the first such
chunk) and overwrite token counts when a usage payload is present. -/
def stepChunk (st : StreamState) (c : Chunk) : StreamState :=
  let st1 :=
    if contentTruthy c then
      { st with
        rollingText := st.rollingText ++ (c.content.getD [])
        firstTokenTime := match st.firstTokenTime with
          | none => some c.time
          | some t => some t }
    else st
  match c.usage with
  | some u => { st1 with promptTokens := u.1, completionTokens := u.2 }
  | none => st1

/-- The whole stream loop over a completed (error-free) chunk sequence. -/
def processChunks (chunks : List Chunk) : StreamState :=
  chunks.foldl stepChunk initialStreamState

/-- Classification of the IEEE-754 quotient the code computes; the numeric
value of a finite quotient is carried exactly as a rational (float rounding
never moves a finite positive quotient to `0`, `NaN` or `Infinity` for the
magnitudes involved). -/
inductive TpsResult where
  | zero : TpsResult
  | finite : ℚ → TpsResult
  | nan : TpsResult
  | infinite : TpsResult
deriving DecidableEq

/-- IEEE classification of `a / b` for finite non-negative operands. -/
def jsDiv (a b : ℚ) : TpsResult :=
  if b ≠ 0 then TpsResult.finite (a / b)
  else if a = 0 then TpsResult.nan
  else TpsResult.infinite

/-- The tokens-per-second computation
`completionTokens > 0 ? completionTokens / (totalDuration / 1000) : "0.00"`
(`totalDuration` in milliseconds). -/
def computeTps (completionTokens : Nat) (totalDurationMs : Nat) : TpsResult :=
  if completionTokens > 0 then
    jsDiv (completionTokens : ℚ) ((totalDurationMs : ℚ) / 1000)
  else TpsResult.zero

/-- The time-to-first-token computation
`firstTokenTime ? firstTokenTime - startTime : 0`; the numeric value `0` is
falsy in JS, hence the explicit inner check. -/
def reportedTtft (startTime : Nat) (firstTokenTime : Option Nat) : Int :=
  match firstTokenTime with
  | some t => if t ≠ 0 then (t : Int) - (startTime : Int) else 0
  | none => 0

/-- The process-wide `modelCache`, an association of provider name to the
list stored for it (insertion order preserved, one entry per key). -/
abbrev Cache := List (Str × List ModelInfo)

/-- `modelCache[provider]` read. -/
def lookupCache (cache : Cache) (p : Str) : Option (List ModelInfo) :=
  match cache.find? (fun e => e.1 == p) with
  | some e => some e.2
  | none => none

/-- `modelCache[provider] = models` write: replace the entry when the key is
present, append otherwise. -/
def storeCache (cache : Cache) (p : Str) (ms : List ModelInfo) : Cache :=
  if cache.any (fun e => e.1 == p) then
    cache.map (fun e => if e.1 == p then (p, ms) else e)
  else cache ++ [(p, ms)]

/-- The network responses available to one fetch, per provider endpoint;
transport is an external collaborator, so its reply is an oracle value. -/
structure Net where
  openrouterJson : JSVal
  openaiJson : JSVal
  ollamaJson : JSVal

/-- `(response.json.data || [])` materialised as raw `{id}` records for the
OpenAI branch; `.filter` on a non-array throws, made explicit as an error. -/
def jsArrToRawModels : JSVal → Except Str (List RawModel)
  | JSVal.arr items => Except.ok (items.map (fun it => ⟨(it.getField "id".toList).asStr⟩))
  | _ => Except.error "TypeError: not an array".toList

/-- Truthiness of the optional `apiKey` argument (`if (!apiKey) throw`). -/
def optKeyTruthy : Option Str → Bool
  | some s => s ≠ []
  | none => false

/-- `fetchModelsForProvider` from `main.ts`: return the cached list when the
provider key is populated (performing no fetch — the second component
records whether a network request was issued), otherwise fetch and parse
per provider; unknown providers and a missing OpenAI key throw before any
network call. -/
def fetchModelsForProvider (cache : Cache) (provider : Str)
    (apiKey baseURL : Option Str) (net : Net) :
    Except Str (List ModelInfo) × Bool :=
  match lookupCache cache provider with
  | some ms => (Except.ok ms, false)
  | none =>
    if provider = "openrouter".toList then
      (parseOpenRouterModels net.openrouterJson, true)
    else if provider = "openai".toList then
      if optKeyTruthy apiKey = false then
        (Except.error "OpenAI API key is required to fetch models.".toList, false)
      else
        ((jsArrToRawModels ((net.openaiJson.getField "data".toList).jsOr
          (JSVal.arr []))).map filterOpenAIModels, true)
    else if provider = "ollama".toList then
      (parseOllamaModels net.ollamaJson, true)
    else (Except.error "No model fetching for provider".toList, false)

/-- The arguments of one `ModelPickerModal.onOpen` interaction. -/
structure FetchOp where
  provider : Str
  apiKey : Option Str
  baseURL : Option Str
  net : Net

/-- Cache evolution of one `ModelPickerModal.onOpen`: on success the fetched
list is written back (`modelCache[this.provider] = allModels`); on error the
cache is untouched.  No other code ever writes or deletes cache entries. -/
def pickerOpenStep (cache : Cache) (op : FetchOp) : Cache :=
  match fetchModelsForProvider cache op.provider op.apiKey op.baseURL op.net with
  | (Except.ok ms, _) => storeCache cache op.provider ms
  | (Except.error _, _) => cache

/-- Decimal rendering of the numbered-copy counter. -/
def natToStr (n : Nat) : Str := (toString n).toList

/-- The proposed path `<dir>/<name>.md` (no directory part when the parent
path is empty). -/
def notePath (parentPath fileName : Str) : Str :=
  if parentPath ≠ [] then parentPath ++ "/".toList ++ fileName ++ ".md".toList
  else fileName ++ ".md".toList

/-- The `k`-th numbered-copy candidate `<dir>/<name> k.md`. -/
def numberedPath (parentPath fileName : Str) (k : Nat) : Str :=
  if parentPath ≠ [] then
    parentPath ++ "/".toList ++ fileName ++ " ".toList ++ natToStr k ++ ".md".toList
  else fileName ++ " ".toList ++ natToStr k ++ ".md".toList

/-- The `while (await exists(finalPath))` loop of `handleChoice("new")`,
unrolled with fuel against an existence oracle `ex` (the JS loop diverges
when every candidate exists; any fuel past the first free candidate is
enough, as the probe theorem shows). -/
def probeAux (ex : Str → Bool) (parentPath fileName : Str) :
    Nat → Nat → Str → Str
  | 0, _, cur => cur
  | fuel+1, counter, cur =>
    if ex cur then
      probeAux ex parentPath fileName fuel (counter+1)
        (numberedPath parentPath fileName counter)
    else cur

/-- `handleChoice("new")`'s path computation: start from the conflicting
`<dir>/<name>.md` with counter 1 and probe until the oracle reports a free
path; the note is created at the returned path. -/
def createNumberedPath (ex : Str → Bool) (parentPath fileName : Str)
    (fuel : Nat) : Str :=
  probeAux ex parentPath fileName fuel 1 (notePath parentPath fileName)

/-! ## Theorems -/

/-- Scanning a string for a pattern that matches it entirely replaces it in
one step (used with the concrete placeholder tokens). -/
theorem replaceAll_selTok_self (repl : Str) : replaceAll selTok repl selTok = repl := by
  have h : replaceAll selTok repl selTok = repl ++ [] := rfl
  rw [h, List.append_nil]

theorem replaceAll_ctxTok_self (repl : Str) : replaceAll ctxTok repl ctxTok = repl := by
  have h : replaceAll ctxTok repl ctxTok = repl ++ [] := rfl
  rw [h, List.append_nil]

/-- C1 counterexample: with template `{{selection}}`, selection
`{{context}}` and context `C`, the code returns `C` — the
`{{context}}`-shaped substring inserted by the selection pass is expanded by
the later context pass — while the claim's single-pass substitution keeps it
verbatim, returning `{{context}}`. -/
theorem buildPrompt_single_pass_counterexample :
    buildPrompt selTok ctxTok ("C".toList) = "C".toList ∧
    substituteSinglePass selTok ctxTok ("C".toList) = ctxTok ∧
    buildPrompt selTok ctxTok ("C".toList)
      ≠ substituteSinglePass selTok ctxTok ("C".toList) := by
  refine ⟨by decide, by decide, by decide⟩

/-- C1 (amended): `buildPrompt` is two sequential one-pass global replaces —
all `{{selection}}` occurrences replaced by the selection, then all
`{{context}}` occurrences of the intermediate result replaced by the
context.  Within each pass the inserted text is verbatim and never
rescanned, so `{{selection}}`-shaped or `{{context}}`-shaped substrings of
the context argument remain unexpanded (second conjunct: the context is
returned byte-for-byte); but a `{{context}}`-shaped substring of the
selection IS expanded by the subsequent context pass (third conjunct: the
selection is rescanned by the context pass). -/
theorem buildPrompt_sequential_passes (s c : Str) :
    (∀ t, buildPrompt t s c = replaceAll ctxTok c (replaceAll selTok s t)) ∧
    buildPrompt ctxTok s c = c ∧
    buildPrompt selTok s c = replaceAll ctxTok c s := by
  refine ⟨fun t => rfl, ?_, ?_⟩
  · have h1 : replaceAll selTok s ctxTok = ctxTok := rfl
    show replaceAll ctxTok c (replaceAll selTok s ctxTok) = c
    rw [h1, replaceAll_ctxTok_self]
  · show replaceAll ctxTok c (replaceAll selTok s selTok) = replaceAll ctxTok c s
    rw [replaceAll_selTok_self]

/-- C3: with `maxLength = 30` the menu label never exceeds 30 characters;
the label is the substitution stage's output (selection cut to 24 plus the
ellipsis marker only when longer than 24, `{{context}}` collapsed to the
marker) either passed through unchanged or — exactly when it exceeds 30 —
hard-truncated to `30 - 3` characters plus the ellipsis marker, hence
ending in the marker whenever truncation occurred. -/
theorem buildMenuLabel_thirty (t s : Str) :
    (buildMenuLabel t s 30).length ≤ 30 ∧
    (buildMenuLabel t s 30 = menuLabelRaw t s ∧ (menuLabelRaw t s).length ≤ 30 ∨
      (menuLabelRaw t s).length > 30 ∧
        buildMenuLabel t s 30 = (menuLabelRaw t s).take (30 - 3) ++ ellipsis ∧
        ellipsis <:+ buildMenuLabel t s 30) ∧
    menuLabelRaw t s
      = replaceAll ctxTok ellipsis (replaceAll selTok (truncatedSelection s) t) ∧
    (s.length ≤ 24 ∧ truncatedSelection s = s ∨
      s.length > 24 ∧ truncatedSelection s = s.take 24 ++ ellipsis) := by
  have h27 : (menuLabelRaw t s).length > 30 →
      (List.take (30 - 3) (menuLabelRaw t s)).length = 27 := by
    intro h
    simp [List.length_take]
    omega
  refine ⟨?_, ?_, rfl, ?_⟩
  · by_cases h : (menuLabelRaw t s).length > 30
    · simp [buildMenuLabel, h, h27 h, ellipsis]
    · simp [buildMenuLabel, h]
      omega
  · by_cases h : (menuLabelRaw t s).length > 30
    · exact Or.inr ⟨h, by simp [buildMenuLabel, h],
        ⟨(menuLabelRaw t s).take (30 - 3), by simp [buildMenuLabel, h]⟩⟩
    · refine Or.inl ⟨by simp [buildMenuLabel, h], by omega⟩
  · by_cases h : s.length > 24
    · exact Or.inr ⟨h, by simp [truncatedSelection, h]⟩
    · exact Or.inl ⟨by omega, by simp [truncatedSelection, h]⟩

/-- C2: for the `openrouter` provider the base URL is pinned to the
OpenRouter API root whatever `baseURL` stores, the model comes from
`openRouterModel`, the API key is sourced from `openRouterApiKey` (subject
to the global empty-key placeholder), the headers mapping carries
`HTTP-Referer` iff the referer setting is non-empty and `X-Title` iff the
title setting is non-empty, and with both empty the mapping itself is
absent (`none`), not empty. -/
theorem getProviderConfig_openrouter (s : Settings)
    (h : s.dropdownValue = "openrouter".toList) :
    (getProviderConfig s).baseURL = "https://openrouter.ai/api/v1".toList ∧
    (getProviderConfig s).model = s.openRouterModel ∧
    (getProviderConfig s).apiKey
      = (if s.openRouterApiKey = [] then "-".toList else s.openRouterApiKey) ∧
    ("HTTP-Referer".toList ∈ headerKeys (getProviderConfig s) ↔ s.openRouterReferer ≠ []) ∧
    ("X-Title".toList ∈ headerKeys (getProviderConfig s) ↔ s.openRouterTitle ≠ []) ∧
    (s.openRouterReferer = [] → s.openRouterTitle = [] →
      (getProviderConfig s).defaultHeaders = none) := by
  by_cases hr : s.openRouterReferer = [] <;> by_cases ht : s.openRouterTitle = [] <;>
    simp [getProviderConfig, headerKeys, h, hr, ht]

/-- Witness for C2 at a concrete settings value: referer and title both
empty give no headers mapping, and the base URL is pinned. -/
theorem getProviderConfig_openrouter_witness :
    (getProviderConfig ⟨"openrouter".toList, "http://example".toList, "e".toList,
        "k".toList, "m".toList, "or-key".toList, [], [], [], []⟩).defaultHeaders = none ∧
    (getProviderConfig ⟨"openrouter".toList, "http://example".toList, "e".toList,
        "k".toList, "m".toList, "or-key".toList, [], [], [], []⟩).baseURL
      = "https://openrouter.ai/api/v1".toList := by
  have H := getProviderConfig_openrouter ⟨"openrouter".toList, "http://example".toList,
    "e".toList, "k".toList, "m".toList, "or-key".toList, [], [], [], []⟩ rfl
  exact ⟨H.2.2.2.2.2 rfl rfl, H.1⟩

/-- C9: for every settings value, whatever the provider, the resolved API
key of the provider config is never the empty string — an empty resolved
key is replaced by the placeholder `-`, a non-empty one is passed through
unchanged. -/
theorem apiKey_never_empty (s : Settings) :
    (getProviderConfig s).apiKey
      = (if resolvedApiKey s = [] then "-".toList else resolvedApiKey s) ∧
    (getProviderConfig s).apiKey ≠ [] := by
  by_cases h : s.dropdownValue = "openrouter".toList
  · by_cases hk : s.openRouterApiKey = [] <;>
      simp [getProviderConfig, resolvedApiKey, h, hk]
  · simp only [String.toList] at h
    by_cases hk : s.apiKey = [] <;>
      simp [getProviderConfig, resolvedApiKey, h, hk]

theorem dropWhile_eq_self_of_forall {p : Char → Bool} {l : Str}
    (h : ∀ c ∈ l, p c = false) : l.dropWhile p = l := by
  cases l with
  | nil => rfl
  | cons a as => simp [List.dropWhile_cons, h a (by simp)]

theorem jsTrim_eq_self_of_no_ws {l : Str}
    (h : ∀ c ∈ l, c.isWhitespace = false) : jsTrim l = l := by
  unfold jsTrim
  rw [dropWhile_eq_self_of_forall h,
    dropWhile_eq_self_of_forall (fun c hc => h c (List.mem_reverse.mp hc)),
    List.reverse_reverse]

theorem jsTrim_length_le (l : Str) : (jsTrim l).length ≤ l.length := by
  unfold jsTrim
  calc ((l.dropWhile Char.isWhitespace).reverse.dropWhile Char.isWhitespace).reverse.length
      = ((l.dropWhile Char.isWhitespace).reverse.dropWhile Char.isWhitespace).length := by
        simp
    _ ≤ (l.dropWhile Char.isWhitespace).reverse.length := (List.dropWhile_sublist _).length_le
    _ = (l.dropWhile Char.isWhitespace).length := by simp
    _ ≤ l.length := (List.dropWhile_sublist _).length_le

theorem mem_jsTrim {c : Char} {l : Str} (h : c ∈ jsTrim l) : c ∈ l := by
  unfold jsTrim at h
  have h1 := List.mem_reverse.mp h
  have h2 := (List.dropWhile_sublist _).subset h1
  have h3 := List.mem_reverse.mp h2
  exact (List.dropWhile_sublist _).subset h3

set_option maxRecDepth 8192 in
/-- C6 counterexample: the 200-character input made of `:` (a forbidden
character) sanitizes to the 14-character fallback label, not to a
100-character string. -/
theorem sanitizeFileName_counterexample :
    (List.replicate 200 ':').length = 200 ∧
    sanitizeFileName (List.replicate 200 ':') = fallbackName ∧
    (sanitizeFileName (List.replicate 200 ':')).length = 14 := by
  refine ⟨by decide, by decide, by decide⟩

/-- C6 (amended): `sanitizeFileName` removes every forbidden character with
no substitution, truncates to 100 characters, trims surrounding whitespace,
and falls back to the fixed label when the result is empty; `:::` and the
empty string both yield the fallback label; and a 200-character input made
of characters that are neither forbidden nor whitespace yields exactly 100
characters (a 200-character input of forbidden or trailing-whitespace
characters can come out shorter, as the counterexample shows). -/
theorem sanitizeFileName_spec (s : Str) (h200 : s.length = 200)
    (hgood : ∀ c ∈ s, forbiddenChars.contains c = false ∧ c.isWhitespace = false) :
    (sanitizeFileName s).length = 100 ∧
    (∀ t : Str, (sanitizeFileName t).length ≤ 100 ∧ sanitizeFileName t ≠ [] ∧
      ∀ c ∈ sanitizeFileName t, forbiddenChars.contains c = false) ∧
    sanitizeFileName (":::".toList) = fallbackName ∧
    sanitizeFileName [] = fallbackName := by
  refine ⟨?_, ?_, by decide, by decide⟩
  · have hfilter : s.filter (fun c => !forbiddenChars.contains c) = s :=
      List.filter_eq_self.mpr (fun c hc => by rw [(hgood c hc).1]; rfl)
    have htake : (s.take 100).length = 100 := by simp [List.length_take, h200]
    have htrim : jsTrim (s.take 100) = s.take 100 :=
      jsTrim_eq_self_of_no_ws
        (fun c hc => (hgood c ((List.take_sublist _ _).subset hc)).2)
    have hne : s.take 100 ≠ [] := by
      intro he
      rw [he] at htake
      simp at htake
    unfold sanitizeFileName
    rw [hfilter, htrim, if_neg hne]
    exact htake
  · intro t
    have hrlen : (jsTrim ((t.filter (fun c => !forbiddenChars.contains c)).take 100)).length
        ≤ 100 := by
      refine le_trans (jsTrim_length_le _) ?_
      simp [List.length_take]
    by_cases hr : jsTrim ((t.filter (fun c => !forbiddenChars.contains c)).take 100) = []
    · unfold sanitizeFileName
      rw [hr, if_pos rfl]
      refine ⟨by decide, by decide, by decide⟩
    · unfold sanitizeFileName
      rw [if_neg hr]
      refine ⟨hrlen, hr, ?_⟩
      intro c hc
      have h1 := mem_jsTrim hc
      have h2 := (List.take_sublist _ _).subset h1
      have h3 := (List.mem_filter.mp h2).2
      simpa using h3

/-- Witness for C6 at a concrete input: 200 letters `a` sanitize to exactly
100 characters. -/
theorem sanitizeFileName_spec_witness :
    (sanitizeFileName (List.replicate 200 'a')).length = 100 :=
  (sanitizeFileName_spec (List.replicate 200 'a') (by rw [List.length_replicate])
    (fun c hc => by rw [List.eq_of_mem_replicate hc]; exact ⟨by decide, by decide⟩)).1

/-- `(data && data.k) || []` collapses to the empty array whenever the
field `k` is missing, whatever `data` itself is. -/
theorem jsAnd_jsOr_arr_of_undef {d : JSVal} {k : Str} (h : d.getField k = JSVal.undef) :
    (d.jsAnd (d.getField k)).jsOr (JSVal.arr []) = JSVal.arr [] := by
  rw [h]
  unfold JSVal.jsAnd
  by_cases ht : d.truthy = true
  · rw [if_pos ht]
    rfl
  · rw [if_neg ht]
    unfold JSVal.jsOr
    rw [if_neg ht]

/-- C5: the catalog parsers are total over partial input and never raise —
whenever the top-level `data` (respectively `models`) field is missing, the
parser returns the empty list (`Except.ok`, never `Except.error`); in
particular both parsers on the empty object, and the OpenAI filter on the
empty array, give the empty list. -/
theorem parsers_total_on_missing_fields (d1 d2 : JSVal)
    (h1 : d1.getField ("data".toList) = JSVal.undef)
    (h2 : d2.getField ("models".toList) = JSVal.undef) :
    parseOpenRouterModels d1 = Except.ok [] ∧
    parseOllamaModels d2 = Except.ok [] ∧
    filterOpenAIModels [] = [] ∧
    parseOpenRouterModels (JSVal.obj []) = Except.ok [] ∧
    parseOllamaModels (JSVal.obj []) = Except.ok [] := by
  refine ⟨?_, ?_, rfl, rfl, rfl⟩
  · unfold parseOpenRouterModels
    rw [jsAnd_jsOr_arr_of_undef h1]
    rfl
  · unfold parseOllamaModels
    rw [jsAnd_jsOr_arr_of_undef h2]
    rfl

/-- Witness for C5: the empty object misses both top-level fields and both
parsers return the empty list on it. -/
theorem parsers_total_witness :
    parseOpenRouterModels (JSVal.obj []) = Except.ok [] ∧
    parseOllamaModels (JSVal.obj []) = Except.ok [] :=
  ⟨(parsers_total_on_missing_fields (JSVal.obj []) (JSVal.obj []) rfl rfl).1,
   (parsers_total_on_missing_fields (JSVal.obj []) (JSVal.obj []) rfl rfl).2.1⟩

/-- If no chunk of the stream carries truthy content, no first-token time
is ever recorded. -/
theorem foldl_stepChunk_firstTokenTime (chunks : List Chunk) :
    ∀ st : StreamState, (∀ ch ∈ chunks, contentTruthy ch = false) →
      (chunks.foldl stepChunk st).firstTokenTime = st.firstTokenTime := by
  induction chunks with
  | nil => intro st _; rfl
  | cons c rest ih =>
    intro st h
    have hc : contentTruthy c = false := h c (by simp)
    have hstep : (stepChunk st c).firstTokenTime = st.firstTokenTime := by
      unfold stepChunk
      rw [hc]
      cases c.usage <;> simp
    rw [List.foldl_cons, ih (stepChunk st c) (fun ch hm => h ch (by simp [hm])), hstep]

/-- C8 counterexample: a completed session with 2 completion tokens and a
zero-millisecond elapsed time performs the division on a zero divisor and
produces the infinity: the claimed "the division producing infinity or NaN
is never performed" fails (only the NaN case is prevented by the
`completionTokens > 0` guard). -/
theorem computeTps_counterexample :
    computeTps 2 0 = TpsResult.infinite ∧ 0 < 2 := by
  refine ⟨?_, by decide⟩
  simp [computeTps, jsDiv]

/-- C8 (amended): tokens-per-second equals the completion token count
divided by the elapsed seconds only when the completion count is positive
(stated for positive elapsed time), is reported as zero when the completion
count is zero, and NaN is never produced — but the division is performed
whenever the completion count is positive, so a zero elapsed time yields
infinity, as the counterexample shows; time-to-first-token is reported as
zero when no content-bearing chunk was ever received. -/
theorem streaming_metrics (chunks : List Chunk) (startTime c dur : Nat)
    (hc : 0 < c) (hdur : 0 < dur)
    (hnone : ∀ ch ∈ chunks, contentTruthy ch = false) :
    computeTps c dur = TpsResult.finite ((c : ℚ) / ((dur : ℚ) / 1000)) ∧
    computeTps 0 dur = TpsResult.zero ∧
    (∀ c2 d2 : Nat, computeTps c2 d2 ≠ TpsResult.nan) ∧
    (processChunks chunks).firstTokenTime = none ∧
    reportedTtft startTime (processChunks chunks).firstTokenTime = 0 := by
  have hden : ((dur : ℚ) / 1000) ≠ 0 := by
    have : (dur : ℚ) ≠ 0 := by
      exact_mod_cast Nat.pos_iff_ne_zero.mp hdur
    intro hz
    apply this
    field_simp at hz
    exact_mod_cast hz
  have hft : (processChunks chunks).firstTokenTime = none :=
    foldl_stepChunk_firstTokenTime chunks initialStreamState hnone
  refine ⟨?_, rfl, ?_, hft, ?_⟩
  · simp [computeTps, jsDiv, hc, hden]
  · intro c2 d2
    by_cases hc2 : 0 < c2
    · by_cases hz : ((d2 : ℚ) / 1000) = 0 <;>
        simp [computeTps, jsDiv, hc2, hz, Nat.pos_iff_ne_zero.mp hc2]
    · simp [computeTps, hc2]
  · rw [hft]
    rfl

/-- Witness for C8: a concrete session of one usage-only chunk, 2
completion tokens and a 1000-millisecond elapsed time. -/
theorem streaming_metrics_witness :
    computeTps 2 1000 = TpsResult.finite ((2 : ℚ) / ((1000 : ℚ) / 1000)) ∧
    computeTps 0 1000 = TpsResult.zero ∧
    (∀ c2 d2 : Nat, computeTps c2 d2 ≠ TpsResult.nan) ∧
    (processChunks [⟨none, some (10, 2), 5⟩]).firstTokenTime = none ∧
    reportedTtft 0 (processChunks [⟨none, some (10, 2), 5⟩]).firstTokenTime = 0 :=
  streaming_metrics [⟨none, some (10, 2), 5⟩] 0 2 1000 (by decide) (by decide)
    (by decide)

/-- The probe loop invariant: starting at `counter ≤ k` from a path that
exists, with every numbered candidate in `[counter, k)` existing and the
`k`-th free, the loop stops exactly at candidate `k` (given enough fuel). -/
theorem probeAux_finds (ex : Str → Bool) (parent name : Str) (k : Nat)
    (hfree : ex (numberedPath parent name k) = false) :
    ∀ fuel counter cur, 1 ≤ counter → counter ≤ k →
      ex cur = true →
      (∀ j, counter ≤ j → j < k → ex (numberedPath parent name j) = true) →
      k - counter + 2 ≤ fuel →
      probeAux ex parent name fuel counter cur = numberedPath parent name k := by
  intro fuel
  induction fuel with
  | zero =>
    intro counter cur _ _ _ _ hf
    omega
  | succ f ih =>
    intro counter cur h1 hck hcur hbusy hf
    unfold probeAux
    rw [if_pos hcur]
    by_cases hek : counter = k
    · subst hek
      obtain ⟨f2, rfl⟩ : ∃ f2, f = f2 + 1 := ⟨f - 1, by omega⟩
      unfold probeAux
      rw [if_neg (by rw [hfree]; exact Bool.false_ne_true)]
    · exact ih (counter + 1) (numberedPath parent name counter) (by omega) (by omega)
        (hbusy counter (le_refl _) (by omega))
        (fun j hj1 hj2 => hbusy j (by omega) hj2)
        (by omega)

/-- C7: when `<dir>/<name>.md` exists and the user picks the numbered-copy
option, the handler probes `<name> 1.md`, `<name> 2.md`, … in increasing
order and creates the note at `<name> k.md` for the smallest unused
`k ≥ 1` (stated against an arbitrary existence oracle, with any fuel at
least `k + 1` unrollings of the source's `while` loop). -/
theorem createNumbered_smallest (ex : Str → Bool) (parent name : Str) (k fuel : Nat)
    (hfull : ex (notePath parent name) = true)
    (hk1 : 1 ≤ k)
    (hfree : ex (numberedPath parent name k) = false)
    (hbusy : ∀ j, 1 ≤ j → j < k → ex (numberedPath parent name j) = true)
    (hfuel : k + 1 ≤ fuel) :
    createNumberedPath ex parent name fuel = numberedPath parent name k := by
  unfold createNumberedPath
  exact probeAux_finds ex parent name k hfree fuel 1 (notePath parent name)
    (le_refl 1) hk1 hfull hbusy (by omega)

/-- Witness for C7: with `n.md` and `n 1.md` existing and `n 2.md` free,
the numbered copy is created at `n 2.md`. -/
theorem createNumbered_smallest_witness :
    createNumberedPath
        (fun s => s == ("n.md".toList) || s == ("n 1.md".toList)) [] ("n".toList) 4
      = numberedPath [] ("n".toList) 2 := by
  refine createNumbered_smallest _ [] _ 2 4 (by decide) (by decide) (by decide)
    (fun j hj1 hj2 => ?_) (by decide)
  have hj : j = 1 := by omega
  subst hj
  decide

theorem strLe_total : ∀ a b : Str, strLe a b = true ∨ strLe b a = true
  | [], _ => Or.inl rfl
  | _ :: _, [] => Or.inr rfl
  | a :: as, b :: bs => by
    rcases lt_trichotomy a b with h | h | h
    · left
      simp [strLe, h]
    · subst h
      rcases strLe_total as bs with ih | ih
      · left
        simp [strLe, lt_irrefl, ih]
      · right
        simp [strLe, lt_irrefl, ih]
    · right
      simp [strLe, h]

theorem strLe_trans (a : Str) : ∀ b c : Str,
    strLe a b = true → strLe b c = true → strLe a c = true := by
  induction a with
  | nil =>
    intro b c _ _
    rfl
  | cons x xs ih =>
    intro b c h1 h2
    cases b with
    | nil => simp [strLe] at h1
    | cons y ys =>
      cases c with
      | nil => simp [strLe] at h2
      | cons z zs =>
        simp only [strLe] at h1 h2 ⊢
        by_cases hxy : x < y
        · by_cases hyz : y < z
          · simp [lt_trans hxy hyz]
          · by_cases hzy : z < y
            · rw [if_neg hyz, if_pos hzy] at h2
              exact absurd h2 Bool.false_ne_true
            · have hyzeq : y = z := le_antisymm (not_lt.mp hzy) (not_lt.mp hyz)
              subst hyzeq
              simp [hxy]
        · by_cases hyx : y < x
          · rw [if_neg hxy, if_pos hyx] at h1
            exact absurd h1 Bool.false_ne_true
          · have hxyeq : x = y := le_antisymm (not_lt.mp hyx) (not_lt.mp hxy)
            subst hxyeq
            rw [if_neg (lt_irrefl x), if_neg (lt_irrefl x)] at h1
            by_cases hxz : x < z
            · simp [hxz]
            · by_cases hzx : z < x
              · rw [if_neg hxz, if_pos hzx] at h2
                exact absurd h2 Bool.false_ne_true
              · have hxzeq : x = z := le_antisymm (not_lt.mp hzx) (not_lt.mp hxz)
                subst hxzeq
                rw [if_neg (lt_irrefl x), if_neg (lt_irrefl x)] at h2 ⊢
                exact ih ys zs h1 h2

instance : IsTotal ModelInfo idLe := ⟨fun a b => strLe_total a.id b.id⟩

instance : IsTrans ModelInfo idLe := ⟨fun a b c => strLe_trans a.id b.id c.id⟩

/-- Every output element of `filterOpenAIModels` passes the allow-list,
fails the deny-list, and carries no `name`/`pricing`. -/
theorem mem_filterOpenAIModels {m : ModelInfo} {l : List RawModel}
    (hm : m ∈ filterOpenAIModels l) :
    (matchesChat m.id && !isExcluded m.id) = true ∧ m.name = none ∧ m.pricing = none := by
  unfold filterOpenAIModels sortByIdLe at hm
  have hmem := (List.mem_insertionSort idLe).mp hm
  obtain ⟨r, hr, rfl⟩ := List.mem_map.mp hmem
  exact ⟨(List.mem_filter.mp hr).2, rfl, rfl⟩

/-- C4: `filterOpenAIModels` is idempotent — reapplied to its own output
(as `{id}` records) it returns the same list; its output is always sorted
ascending by id (ordinal comparison); every output id matches an allow-list
prefix and no deny-list prefix; and a listed model whose id matches a
deny-list prefix never reaches the output, whatever allow-list prefixes it
also matches. -/
theorem filterOpenAIModels_props (l : List RawModel) :
    filterOpenAIModels ((filterOpenAIModels l).map (fun m => ⟨m.id⟩)) = filterOpenAIModels l ∧
    List.Sorted idLe (filterOpenAIModels l) ∧
    (∀ m ∈ filterOpenAIModels l, matchesChat m.id = true ∧ isExcluded m.id = false) ∧
    (∀ r ∈ l, isExcluded r.id = true → ∀ m ∈ filterOpenAIModels l, m.id ≠ r.id) := by
  have hsorted : List.Sorted idLe (filterOpenAIModels l) :=
    List.sorted_insertionSort idLe _
  have hpass : ∀ m ∈ filterOpenAIModels l,
      matchesChat m.id = true ∧ isExcluded m.id = false := by
    intro m hm
    have h := (mem_filterOpenAIModels hm).1
    simp only [Bool.and_eq_true, Bool.not_eq_true'] at h
    exact h
  refine ⟨?_, hsorted, hpass, ?_⟩
  · have hfilter : ((filterOpenAIModels l).map (fun m => (⟨m.id⟩ : RawModel))).filter
        (fun m => matchesChat m.id && !isExcluded m.id)
        = (filterOpenAIModels l).map (fun m => (⟨m.id⟩ : RawModel)) := by
      refine List.filter_eq_self.mpr ?_
      intro q hq
      obtain ⟨m, hm, rfl⟩ := List.mem_map.mp hq
      exact (mem_filterOpenAIModels hm).1
    have hmaps : (((filterOpenAIModels l).map (fun m => (⟨m.id⟩ : RawModel))).map
        (fun m => ({ id := m.id } : ModelInfo))) = filterOpenAIModels l := by
      rw [List.map_map]
      have : ∀ m ∈ filterOpenAIModels l,
          ((fun r => ({ id := r.id } : ModelInfo)) ∘ (fun m => (⟨m.id⟩ : RawModel))) m
            = id m := by
        intro m hm
        obtain ⟨hname, hpricing⟩ := (mem_filterOpenAIModels hm).2
        cases m
        simp only [Function.comp, id]
        simp_all
      rw [List.map_congr_left this, List.map_id]
    show sortByIdLe _ = _
    rw [hfilter, hmaps]
    exact hsorted.insertionSort_eq
  · intro r _ hex m hm hne
    have := (hpass m hm).2
    rw [hne, hex] at this
    exact absurd this (by simp)

theorem find?_cons_pos {α : Type} (pred : α → Bool) (e : α) (l : List α)
    (h : pred e = true) : List.find? pred (e :: l) = some e := by
  simp [List.find?, h]

theorem find?_cons_neg {α : Type} (pred : α → Bool) (e : α) (l : List α)
    (h : pred e = false) : List.find? pred (e :: l) = List.find? pred l := by
  simp [List.find?, h]

/-- Writing a key that is already populated leaves it looked up at the
written value. -/
theorem find?_store_self (cache : Cache) (q : Str) (ms : List ModelInfo) :
    (storeCache cache q ms).find? (fun e => e.1 == q) = some (q, ms) := by
  unfold storeCache
  by_cases h : cache.any (fun e => e.1 == q) = true
  · rw [if_pos h]
    induction cache with
    | nil => simp at h
    | cons e rest ih =>
      simp only [List.map_cons]
      by_cases he : (e.1 == q) = true
      · rw [if_pos he]
        exact find?_cons_pos (fun e => e.1 == q) (q, ms) _ (by simp)
      · have hrest : rest.any (fun e => e.1 == q) = true := by
          rw [List.any_cons] at h
          simpa [he] using h
        rw [if_neg he, find?_cons_neg (fun e => e.1 == q) e _ (by simpa using he)]
        exact ih hrest
  · rw [if_neg h]
    induction cache with
    | nil => exact find?_cons_pos (fun e => e.1 == q) (q, ms) _ (by simp)
    | cons e rest ih =>
      have he : (e.1 == q) = false := by
        by_cases ht : (e.1 == q) = true
        · refine absurd ?_ h
          rw [List.any_cons, ht]
          rfl
        · simpa using ht
      have hrest : ¬ rest.any (fun e => e.1 == q) = true := by
        intro hr
        refine h ?_
        rw [List.any_cons, hr]
        simp
      rw [List.cons_append, find?_cons_neg (fun e => e.1 == q) e _ he]
      exact ih hrest

/-- Writing one key never disturbs the lookup of a different key. -/
theorem find?_store_other (cache : Cache) (q : Str) (ms : List ModelInfo)
    (p : Str) (hne : p ≠ q) :
    (storeCache cache q ms).find? (fun e => e.1 == p)
      = cache.find? (fun e => e.1 == p) := by
  have hqp : ((q, ms).1 == p) = false := by
    simp only []
    exact beq_eq_false_iff_ne.mpr (fun hq => hne hq.symm)
  unfold storeCache
  by_cases h : cache.any (fun e => e.1 == q) = true
  · rw [if_pos h]
    clear h
    induction cache with
    | nil => rfl
    | cons e rest ih =>
      simp only [List.map_cons]
      by_cases he : (e.1 == q) = true
      · have he' : e.1 = q := by simpa using he
        have hep : (e.1 == p) = false := by
          rw [he']
          exact beq_eq_false_iff_ne.mpr (fun hq => hne hq.symm)
        rw [if_pos he, find?_cons_neg (fun e => e.1 == p) (q, ms) _ hqp,
          find?_cons_neg (fun e => e.1 == p) e _ hep]
        exact ih
      · rw [if_neg he]
        by_cases hp : (e.1 == p) = true
        · rw [find?_cons_pos (fun e => e.1 == p) e _ hp,
            find?_cons_pos (fun e => e.1 == p) e _ hp]
        · have hp' : (e.1 == p) = false := by simpa using hp
          rw [find?_cons_neg (fun e => e.1 == p) e _ hp',
            find?_cons_neg (fun e => e.1 == p) e _ hp']
          exact ih
  · rw [if_neg h]
    clear h
    induction cache with
    | nil =>
      rw [List.nil_append, find?_cons_neg (fun e => e.1 == p) (q, ms) _ hqp]
    | cons e rest ih =>
      by_cases hp : (e.1 == p) = true
      · rw [List.cons_append, find?_cons_pos (fun e => e.1 == p) e _ hp,
          find?_cons_pos (fun e => e.1 == p) e _ hp]
      · have hp' : (e.1 == p) = false := by simpa using hp
        rw [List.cons_append, find?_cons_neg (fun e => e.1 == p) e _ hp',
          find?_cons_neg (fun e => e.1 == p) e _ hp']
        exact ih

/-- C10: once a provider's model list is stored in the process-wide cache,
every later `fetchModelsForProvider` call for that provider returns the
cached list and performs no fetch, whatever `apiKey`/`baseURL` arguments it
receives; and no sequence of further model-picker interactions (the only
code that writes the cache, which is never invalidated) can change or drop
the entry. -/
theorem modelCache_sticky (cache : Cache) (p : Str) (ms : List ModelInfo)
    (h : lookupCache cache p = some ms) :
    (∀ (apiKey baseURL : Option Str) (net : Net),
      fetchModelsForProvider cache p apiKey baseURL net = (Except.ok ms, false)) ∧
    (∀ ops : List FetchOp, lookupCache (ops.foldl pickerOpenStep cache) p = some ms) := by
  constructor
  · intro apiKey baseURL net
    unfold fetchModelsForProvider
    rw [h]
  · intro ops
    induction ops generalizing cache with
    | nil => exact h
    | cons op rest ih =>
      rw [List.foldl_cons]
      refine ih (pickerOpenStep cache op) ?_
      unfold pickerOpenStep
      by_cases hp : op.provider = p
      · subst hp
        have hf : fetchModelsForProvider cache op.provider op.apiKey op.baseURL op.net
            = (Except.ok ms, false) := by
          unfold fetchModelsForProvider
          rw [h]
        rw [hf]
        unfold lookupCache
        rw [find?_store_self]
      · cases hf : fetchModelsForProvider cache op.provider op.apiKey op.baseURL op.net with
        | mk r b =>
          cases r with
          | ok ms2 =>
            have hgoal : lookupCache (storeCache cache op.provider ms2) p = some ms := by
              unfold lookupCache at h ⊢
              rw [find?_store_other cache op.provider ms2 p (fun he => hp he.symm)]
              exact h
            exact hgoal
          | error e => exact h

/-- Witness for C10: with `openai` already cached, a fetch with a different
API key still returns the cached list without fetching, and a further
picker interaction leaves the entry intact. -/
theorem modelCache_sticky_witness :
    fetchModelsForProvider [("openai".toList, [⟨"gpt-4o".toList, none, none⟩])]
        ("openai".toList) (some ("new-key".toList)) none
        ⟨JSVal.obj [], JSVal.obj [], JSVal.obj []⟩
      = (Except.ok [⟨"gpt-4o".toList, none, none⟩], false) ∧
    lookupCache
        (List.foldl pickerOpenStep [("openai".toList, [⟨"gpt-4o".toList, none, none⟩])]
          [⟨"openai".toList, some ("new-key".toList), none,
            ⟨JSVal.obj [], JSVal.obj [], JSVal.obj []⟩⟩])
        ("openai".toList) = some [⟨"gpt-4o".toList, none, none⟩] := by
  have H := modelCache_sticky [("openai".toList, [⟨"gpt-4o".toList, none, none⟩])]
    ("openai".toList) [⟨"gpt-4o".toList, none, none⟩] rfl
  exact ⟨H.1 (some ("new-key".toList)) none ⟨JSVal.obj [], JSVal.obj [], JSVal.obj []⟩,
    H.2 [⟨"openai".toList, some ("new-key".toList), none,
      ⟨JSVal.obj [], JSVal.obj [], JSVal.obj []⟩⟩]⟩

end ExplainLib
